import Mathlib

set_option maxHeartbeats 1000000

/-!
Shallow embedding of the validated-JSON decoding library
(`src/ValidatedJson.h`, `src/ValidatedJson.cpp`): the generic JSON value
tree consumed by the binder, the `ValidatedJsonField` chainable
constraint layer, and the `ValidatedJson` binder surface
(`Required` / `Optional` / `ParseValue`), together with theorems about
the behaviour the specification describes.

Exceptions thrown with `std::runtime_error(msg)` are embedded as
`Except Err` results, where `Err` records the structured content of each
diagnostic and `Err.render` produces the exact thrown message text.
-/

/--
A generic JSON value tree: the slice of `Json::Value` the library
consumes.  Numeric nodes are split into an integer tag and a floating
tag (the external `jsoncpp` parser is out of scope and assumed to
deliver a well-tagged tree); objects are ordered key/value lists.
-/
inductive Json where
  | null : Json
  | bool (b : Bool) : Json
  | int (n : Int) : Json
  | double (q : Rat) : Json
  | str (s : String) : Json
  | arr (elems : List Json) : Json
  | obj (fields : List (String × Json)) : Json

/-- Embeds `Json::Value::isMember(key)` for the object node held by a
binder (`false` on non-objects, which the binder never holds). -/
def Json.isMember : Json → String → Bool
  | .obj fs, k => fs.any (fun p => p.fst == k)
  | _, _ => false

/-- Embeds `Json::Value::operator[](key)`: the value stored under `key`
(`null` when absent, matching jsoncpp's null return). -/
def Json.getKey : Json → String → Json
  | .obj fs, k =>
    match fs.find? (fun p => p.fst == k) with
    | some p => p.snd
    | none => .null
  | _, _ => .null

/-- The 32-bit `int` bounds `Json::Value::minInt` / `Json::Value::maxInt`
that `isInt()` checks against. -/
def jsonMinInt : Int := -2147483648

/-- The 32-bit `int` bounds `Json::Value::minInt` / `Json::Value::maxInt`
that `isInt()` checks against. -/
def jsonMaxInt : Int := 2147483647

/-- Embeds `Json::Value::isInt()`: true for an integer-tagged node whose
value fits 32-bit `int`, and for a floating-tagged node that is
integral (`IsIntegral`, here: denominator 1) and within the same
bounds.  (For an integral value the bound check on the real equals the
bound check on its numerator.) -/
def Json.isIntNum : Json → Bool
  | .int n => decide (jsonMinInt ≤ n) && decide (n ≤ jsonMaxInt)
  | .double q => (q.den == 1) && decide (jsonMinInt ≤ q.num) && decide (q.num ≤ jsonMaxInt)
  | _ => false

/-- Embeds `Json::Value::asInt()` on a node `isInt()` accepts. -/
def Json.asIntNum : Json → Int
  | .int n => n
  | .double q => q.num
  | _ => 0

/-- Embeds `Json::Value::isDouble()`: true for every numeric node
(jsoncpp's `intValue`, `uintValue` and `realValue` cases). -/
def Json.isDoubleNum : Json → Bool
  | .int _ => true
  | .double _ => true
  | _ => false

/-- Embeds `Json::Value::asDouble()` on a node `isDouble()` accepts. -/
def Json.asDoubleNum : Json → Rat
  | .int n => (n : Rat)
  | .double q => q
  | _ => 0

/--
The diagnostics the library throws (`ValidatedJson.h`):
`presence` from `Required` (line 280), `parsing` from
`ThrowParsingError` (line 372), `validation` from
`ThrowValidationError` (line 225), and `fileMissing` from `File`
(line 216).
-/
inductive Err where
  | presence (key : String) : Err
  | parsing (src key description : String) : Err
  | validation (src key msg : String) : Err
  | fileMissing (src key path : String) : Err
deriving DecidableEq

/-- The exact `std::runtime_error` message text each diagnostic is
thrown with. -/
def Err.render : Err → String
  | .presence k => "Required key \"" ++ k ++ "\" not found"
  | .parsing src k d => "In " ++ src ++ ", expected " ++ d ++ " for key \"" ++ k ++ "\""
  | .validation src k m => "In " ++ src ++ ", value for key \"" ++ k ++ "\" " ++ m
  | .fileMissing src k p =>
      "In " ++ src ++ ", filename value for key \"" ++ k ++ "\" does not exist: " ++ p

/-- The key a diagnostic reports. -/
def Err.keyOf : Err → String
  | .presence k => k
  | .parsing _ k _ => k
  | .validation _ k _ => k
  | .fileMissing _ k _ => k

/--
Embeds `ValidatedJsonField<T>` (lines 110-231): the ephemeral wrapper
carrying `_key`, `_value` and `_source` produced by `Required` /
`Optional` and consumed by the chainable constraint methods.
-/
structure ValidatedJsonField (T : Type) where
  key : String
  value : T
  source : String
deriving DecidableEq

/-- Embeds `operator T()` (line 123): the implicit conversion yielding
the carried value at the end of a chain. -/
def ValidatedJsonField.toT {T : Type} (f : ValidatedJsonField T) : T := f.value

/-- Embeds `AboveMin` (lines 130-142): throws
"is below minimum of min" when `_value < min`, otherwise returns the
wrapper unchanged. -/
def ValidatedJsonField.AboveMin {T : Type} [LT T] [DecidableRel ((· < ·) : T → T → Prop)]
    [ToString T] (f : ValidatedJsonField T) (min : T) :
    Except Err (ValidatedJsonField T) :=
  if f.value < min then
    .error (.validation f.source f.key ("is below minimum of " ++ toString min))
  else
    .ok f

/-- Embeds `BelowMax` (lines 150-162): throws
"is above maximum of max" when `_value > max`, otherwise returns the
wrapper unchanged. -/
def ValidatedJsonField.BelowMax {T : Type} [LT T] [DecidableRel ((· < ·) : T → T → Prop)]
    [ToString T] (f : ValidatedJsonField T) (max : T) :
    Except Err (ValidatedJsonField T) :=
  if f.value > max then
    .error (.validation f.source f.key ("is above maximum of " ++ toString max))
  else
    .ok f

/-- Embeds `WithinRange` (lines 170-184): throws
"is outside range min to max" when `_value < min || _value > max`,
otherwise returns the wrapper unchanged. -/
def ValidatedJsonField.WithinRange {T : Type} [LT T] [DecidableRel ((· < ·) : T → T → Prop)]
    [ToString T] (f : ValidatedJsonField T) (min max : T) :
    Except Err (ValidatedJsonField T) :=
  if f.value < min ∨ f.value > max then
    .error (.validation f.source f.key
      ("is outside range " ++ toString min ++ " to " ++ toString max))
  else
    .ok f

/-- Embeds `MemberOf` (lines 191-204): returns the wrapper at the first
permitted element equal to `_value`; otherwise throws
"must be one of:" followed by a space before each permitted value. -/
def ValidatedJsonField.MemberOf {T : Type} [BEq T] [ToString T]
    (f : ValidatedJsonField T) (permitted : List T) :
    Except Err (ValidatedJsonField T) :=
  if permitted.any (fun p => f.value == p) then
    .ok f
  else
    .error (.validation f.source f.key
      ("must be one of:" ++ String.join (permitted.map (fun p => " " ++ toString p))))

/-- Embeds `prefix / _value` of `std::filesystem::path` for the `File`
check (line 214), at the level of plain path strings. -/
def pathJoin (pre v : String) : String := if pre = "" then v else pre ++ "/" ++ v

/-- Embeds `File` (lines 210-220), with the external filesystem
existence predicate (`std::filesystem::exists`) passed in as
`fsExists`: throws when the joined path does not exist, otherwise
returns the wrapper unchanged. -/
def ValidatedJsonField.File (fsExists : String → Bool) (pre : String)
    (f : ValidatedJsonField String) : Except Err (ValidatedJsonField String) :=
  if fsExists (pathJoin pre f.value) then
    .ok f
  else
    .error (.fileMissing f.source f.key (pathJoin pre f.value))



/--
A decoded field value: the result of `ParseValue<T>` for each supported
target type `T` (lines 324-368) — the four scalar kinds, a constructed
nested schema object (its field list, in declaration order), and a
decoded `std::vector`.
-/
inductive Val where
  | str (s : String) : Val
  | int (n : Int) : Val
  | double (q : Rat) : Val
  | bool (b : Bool) : Val
  | obj (fields : List (String × Val)) : Val
  | vec (elems : List Val) : Val

/--
One chainable constraint call on an integer field, as issued by a
schema constructor after `Required` / `Optional` (the combinations the
repository's schemas and tests instantiate, and the ones for which the
`std::to_string` message formatting compiles).
-/
inductive IntOp where
  | aboveMin (min : Int) : IntOp
  | belowMax (max : Int) : IntOp
  | withinRange (min max : Int) : IntOp
  | memberOf (permitted : List Int) : IntOp
deriving DecidableEq

/-- Dispatches one chained constraint call to the corresponding
`ValidatedJsonField<int>` method. -/
def applyIntOp : IntOp → ValidatedJsonField Int → Except Err (ValidatedJsonField Int)
  | .aboveMin m, f => f.AboveMin m
  | .belowMax m, f => f.BelowMax m
  | .withinRange lo hi, f => f.WithinRange lo hi
  | .memberOf s, f => f.MemberOf s

/-- A whole constraint chain `Required<int>(k).A(...).B(...)...`,
applied left to right; the first throwing call aborts the chain. -/
def applyIntChain : List IntOp → ValidatedJsonField Int → Except Err (ValidatedJsonField Int)
  | [], f => .ok f
  | op :: ops, f => do
      let f' ← applyIntOp op f
      applyIntChain ops f'

/-- Truth of one constraint on an integer, mirroring the tests inside
`AboveMin` / `BelowMax` / `WithinRange` / `MemberOf`. -/
def IntOp.holds : IntOp → Int → Bool
  | .aboveMin m, n => !(n < m)
  | .belowMax m, n => !(n > m)
  | .withinRange lo hi, n => !(n < lo ∨ n > hi)
  | .memberOf s, n => s.any (fun p => n == p)

/-- Truth of a whole constraint chain on the value it is applied to.
On non-integer values there is nothing to check: the C++ type system
only lets a chain attach to a field of its own type. -/
def consOk (ops : List IntOp) : Val → Bool
  | .int n => ops.all (fun op => op.holds n)
  | _ => true

/-- Runs a constraint chain on a decoded field value, the way a schema
constructor chains the methods on the wrapper returned by `Required` /
`Optional` before the implicit conversion commits the value. -/
def applyCons (src key : String) (ops : List IntOp) : Val → Except Err Val
  | .int n => (applyIntChain ops ⟨key, n, src⟩).map (fun f => Val.int f.toT)
  | v => .ok v

mutual

/--
The target types `ParseValue<T>` dispatches over (lines 324-368):
scalars, a nested `ValidatedJson`-derived schema type (given by its
field list), and `std::vector<E>`.
-/
inductive Ty where
  | str : Ty
  | int : Ty
  | double : Ty
  | bool : Ty
  | nested (fields : Fields) : Ty
  | vec (elem : Ty) : Ty

/--
One declared field of a schema type: a `Required<T>(key)` or
`Optional<T>(key, default)` accessor call followed by a constraint
chain, whose final value initialises the member.
-/
inductive FieldSpec where
  | required (key : String) (ty : Ty) (cons : List IntOp) : FieldSpec
  | optional (key : String) (ty : Ty) (dflt : Val) (cons : List IntOp) : FieldSpec

/-- The declared field list of a schema type's constructor, in
declaration order. -/
inductive Fields where
  | nil : Fields
  | cons (f : FieldSpec) (rest : Fields) : Fields

end

/-- The key a field is declared under. -/
def FieldSpec.keyOf : FieldSpec → String
  | .required k _ _ => k
  | .optional k _ _ _ => k

/-- The default provenance label of `JsonData` (line 45 / line 38):
the `source` argument nested construction never overrides. -/
def defaultSource : String := "JSON data"

theorem Json.sizeOf_getKey_le (j : Json) (k : String) : sizeOf (Json.getKey j k) ≤ sizeOf j := by
  cases j with
  | obj fs =>
    simp only [Json.getKey]
    cases hf : fs.find? (fun p => p.fst == k) with
    | none => simp
    | some p =>
      have hm : p ∈ fs := List.mem_of_find?_eq_some hf
      have hlt : sizeOf p < sizeOf fs := List.sizeOf_lt_of_mem hm
      have hp : sizeOf p.snd < sizeOf p := by
        cases p with
        | mk a b => simp
      simp
      omega
  | null => simp [Json.getKey]
  | bool b => simp [Json.getKey]
  | int n => simp [Json.getKey]
  | double q => simp [Json.getKey]
  | str s => simp [Json.getKey]
  | arr xs => simp [Json.getKey]

mutual

/--
Embeds `ParseValue<T>(key, value)` (lines 324-368): the compile-time
type dispatch, re-expressed over `Ty`.  The integer and floating rows
test the node with jsoncpp's `isInt()` / `isDouble()` (see
`Json.isIntNum` / `Json.isDoubleNum`) and convert with `asInt()` /
`asDouble()`.  A nested schema type is
constructed as `T(JsonData(value))` (line 353), i.e. through a fresh
`JsonData` whose provenance label is the constructor's default
`"JSON data"` (line 45); a `std::vector` target decodes each array
element with the same key (lines 354-364).
-/
def parseValue (src key : String) : Ty → Json → Except Err Val
  | .str, .str s => .ok (.str s)
  | .str, _ => .error (.parsing src key "a string value")
  | .int, j =>
      if j.isIntNum then .ok (.int j.asIntNum)
      else .error (.parsing src key "an integer value")
  | .double, j =>
      if j.isDoubleNum then .ok (.double j.asDoubleNum)
      else .error (.parsing src key "a double value")
  | .bool, .bool b => .ok (.bool b)
  | .bool, _ => .error (.parsing src key "a boolean value")
  | .nested flds, .obj ofs => (evalFields defaultSource flds (.obj ofs)).map Val.obj
  | .nested _, _ => .error (.parsing src key "a JSON object")
  | .vec t, .arr xs => (parseList src key t xs).map Val.vec
  | .vec _, _ => .error (.parsing src key "a JSON array")
termination_by ty j => sizeOf ty + sizeOf j
decreasing_by all_goals (simp_wf; try omega)

/--
Embeds the element loop of the `is_vector` branch of `ParseValue`
(lines 360-364): `result.emplace_back(ParseValue<E>(key, element))` for
each element in source order, aborting at the first throwing element.
-/
def parseList (src key : String) (t : Ty) : List Json → Except Err (List Val)
  | [] => .ok []
  | j :: js => do
      let v ← parseValue src key t j
      let vs ← parseList src key t js
      .ok (v :: vs)
termination_by js => sizeOf t + sizeOf js
decreasing_by all_goals (simp_wf; try omega)

/--
Embeds one field initialiser of a schema constructor:
`Required<T>(key)` (lines 275-284) or `Optional<T>(key, default)`
(lines 294-305), followed by the field's declared constraint chain and
the implicit conversion committing the value.
-/
def evalField (src : String) : FieldSpec → Json → Except Err Val
  | .required key ty cons, root =>
      if root.isMember key then do
        let v ← parseValue src key ty (root.getKey key)
        applyCons src key cons v
      else .error (.presence key)
  | .optional key ty dflt cons, root =>
      if root.isMember key then do
        let v ← parseValue src key ty (root.getKey key)
        applyCons src key cons v
      else applyCons src key cons dflt
termination_by f root => sizeOf f + sizeOf root
decreasing_by all_goals (simp_wf; try (have h := Json.sizeOf_getKey_le root key; omega))

/--
Embeds a schema type's constructor body: the field initialisers run
sequentially in declaration order over the same root node and the
first thrown diagnostic aborts construction (fail-fast).
-/
def evalFields (src : String) : Fields → Json → Except Err (List (String × Val))
  | .nil, _ => .ok []
  | .cons f rest, root => do
      let v ← evalField src f root
      let vs ← evalFields src rest root
      .ok ((f.keyOf, v) :: vs)
termination_by flds root => sizeOf flds + sizeOf root
decreasing_by all_goals (simp_wf; try omega)

end



/--
Modelled from the spec: the in-place `Required` overload for
fixed-capacity C arrays (`T data[N]`) and `RequiredCArray`, which
`MyData.h` and `test/test.cpp` call but whose implementation is not
among the repository's files under `src/`.  Per the spec (§4.2 row 7,
§9), a fixed-capacity array of element type `E` and capacity `N`
decodes like a sequence when the array's length is at most `N`, and
raises a capacity-exceeded `ValidationError` — rather than truncating —
when the length exceeds `N`.
-/
def parseFixedArray (src key : String) (t : Ty) (cap : Nat) : Json → Except Err Val
  | .arr xs =>
      if xs.length > cap then
        .error (.validation src key ("exceeds the declared capacity of " ++ toString cap))
      else
        (parseList src key t xs).map Val.vec
  | _ => .error (.parsing src key "a JSON array")

/-- Target types whose decoding never enters nested schema
construction (no `.nested` anywhere inside). -/
def nestedFree : Ty → Bool
  | .str => true
  | .int => true
  | .double => true
  | .bool => true
  | .nested _ => false
  | .vec t => nestedFree t

mutual

/-- The value a conformant document stores for a target type: scalars
verbatim, nested schema objects field by field, arrays element by
element in source order.  (Total function; its value on non-conformant
input is irrelevant and never reached under `conforms`.) -/
def extract : Ty → Json → Val
  | .str, .str s => .str s
  | .int, j => .int j.asIntNum
  | .double, j => .double j.asDoubleNum
  | .bool, .bool b => .bool b
  | .nested flds, j => .obj (extractFields flds j)
  | .vec t, .arr xs => .vec (extractList t xs)
  | _, _ => .str ""
termination_by ty j => sizeOf ty + sizeOf j
decreasing_by all_goals (simp_wf; try omega)

/-- Element-wise `extract` over a JSON array, in source order. -/
def extractList (t : Ty) : List Json → List Val
  | [] => []
  | j :: js => extract t j :: extractList t js
termination_by js => sizeOf t + sizeOf js
decreasing_by all_goals (simp_wf; try omega)

/-- The field values a conformant document determines for a schema:
the extracted document value for each present key, the declared
default for an absent optional key. -/
def extractFields : Fields → Json → List (String × Val)
  | .nil, _ => []
  | .cons f rest, root => (f.keyOf, extractField f root) :: extractFields rest root
termination_by flds root => sizeOf flds + sizeOf root
decreasing_by all_goals (simp_wf; try omega)

/-- The value one declared field receives from a conformant document. -/
def extractField : FieldSpec → Json → Val
  | .required key ty _, root => extract ty (root.getKey key)
  | .optional key ty dflt _, root =>
      if root.isMember key then extract ty (root.getKey key) else dflt
termination_by f root => sizeOf f + sizeOf root
decreasing_by all_goals (simp_wf; try (have h := Json.sizeOf_getKey_le root key; omega))

end

mutual

/-- Conformance of a JSON node to a target type: the node has the
runtime type the dispatch table expects, recursively. -/
def conforms : Ty → Json → Bool
  | .str, .str _ => true
  | .int, j => j.isIntNum
  | .double, j => j.isDoubleNum
  | .bool, .bool _ => true
  | .nested flds, .obj ofs => fieldsConform flds (.obj ofs)
  | .vec t, .arr xs => listConforms t xs
  | _, _ => false
termination_by ty j => sizeOf ty + sizeOf j
decreasing_by all_goals (simp_wf; try omega)

/-- Conformance of every element of a JSON array to the element type. -/
def listConforms (t : Ty) : List Json → Bool
  | [] => true
  | j :: js => conforms t j && listConforms t js
termination_by js => sizeOf t + sizeOf js
decreasing_by all_goals (simp_wf; try omega)

/-- Conformance of a document node to a whole declared field list:
every required key present with a conformant value, every present
optional key conformant, and every declared constraint chain satisfied
by the value it is applied to (the extracted value, or the declared
default when an optional key is absent). -/
def fieldsConform : Fields → Json → Bool
  | .nil, _ => true
  | .cons f rest, root => fieldConform f root && fieldsConform rest root
termination_by flds root => sizeOf flds + sizeOf root
decreasing_by all_goals (simp_wf; try omega)

/-- Conformance of a document node to one declared field. -/
def fieldConform : FieldSpec → Json → Bool
  | .required key ty cons, root =>
      root.isMember key && conforms ty (root.getKey key)
        && consOk cons (extract ty (root.getKey key))
  | .optional key ty dflt cons, root =>
      if root.isMember key then
        conforms ty (root.getKey key) && consOk cons (extract ty (root.getKey key))
      else
        consOk cons dflt
termination_by f root => sizeOf f + sizeOf root
decreasing_by all_goals (simp_wf; try (have h := Json.sizeOf_getKey_le root key; omega))

end

theorem exBind_ok {e a b : Type} (x : a) (k : a → Except e b) :
    (Except.ok x : Except e a) >>= k = k x := rfl

theorem exBind_err {e a b : Type} (m : e) (k : a → Except e b) :
    (Except.error m : Except e a) >>= k = Except.error m := rfl

theorem exMap_ok {e a b : Type} (f : a → b) (x : a) :
    Except.map f (Except.ok x : Except e a) = Except.ok (f x) := rfl

theorem exMap_err {e a b : Type} (f : a → b) (m : e) :
    Except.map f (Except.error m : Except e a) = Except.error m := rfl

theorem applyIntOp_ok (op : IntOp) (f : ValidatedJsonField Int)
    (h : op.holds f.value = true) : applyIntOp op f = .ok f := by
  cases op <;>
    simp_all [applyIntOp, IntOp.holds, ValidatedJsonField.AboveMin,
      ValidatedJsonField.BelowMax, ValidatedJsonField.WithinRange,
      ValidatedJsonField.MemberOf]

theorem applyIntChain_ok (ops : List IntOp) (f : ValidatedJsonField Int)
    (h : ops.all (fun op => op.holds f.value) = true) :
    applyIntChain ops f = .ok f := by
  induction ops with
  | nil => simp [applyIntChain]
  | cons op rest ih =>
      simp only [List.all_cons, Bool.and_eq_true] at h
      simp [applyIntChain, applyIntOp_ok op f h.1, exBind_ok, ih h.2]

theorem applyCons_ok (src key : String) (ops : List IntOp) (v : Val)
    (h : consOk ops v = true) : applyCons src key ops v = .ok v := by
  cases v <;> simp_all [consOk, applyCons, applyIntChain_ok, ValidatedJsonField.toT, exMap_ok]

theorem applyIntOp_preserves (op : IntOp) (f f' : ValidatedJsonField Int)
    (h : applyIntOp op f = .ok f') : f' = f := by
  cases op <;>
    (simp only [applyIntOp, ValidatedJsonField.AboveMin, ValidatedJsonField.BelowMax,
      ValidatedJsonField.WithinRange, ValidatedJsonField.MemberOf] at h;
     split at h <;> simp_all)

theorem applyIntChain_preserves (ops : List IntOp) (f f' : ValidatedJsonField Int)
    (h : applyIntChain ops f = .ok f') : f' = f := by
  induction ops generalizing f with
  | nil => simp_all [applyIntChain]
  | cons op rest ih =>
      simp only [applyIntChain] at h
      cases hop : applyIntOp op f with
      | error m => simp [hop, exBind_err] at h
      | ok g =>
          rw [hop, exBind_ok] at h
          have := ih g h
          have := applyIntOp_preserves op f g hop
          simp_all

mutual

theorem parseValue_sound (src key : String) (ty : Ty) (j : Json)
    (h : conforms ty j = true) :
    parseValue src key ty j = .ok (extract ty j) := by
  cases ty with
  | str => cases j <;> simp_all [parseValue, extract, conforms]
  | int =>
      have h' : Json.isIntNum j = true := by simpa [conforms] using h
      rw [parseValue, if_pos h', extract]
  | double =>
      have h' : Json.isDoubleNum j = true := by simpa [conforms] using h
      rw [parseValue, if_pos h', extract]
  | bool => cases j <;> simp_all [parseValue, extract, conforms]
  | nested flds =>
      cases j with
      | obj ofs =>
          have hf : fieldsConform flds (.obj ofs) = true := by
            simpa [conforms] using h
          rw [parseValue, evalFields_sound defaultSource flds (.obj ofs) hf]
          simp [extract, exMap_ok]
      | null => simp [conforms] at h
      | bool b => simp [conforms] at h
      | int n => simp [conforms] at h
      | double q => simp [conforms] at h
      | str s => simp [conforms] at h
      | arr xs => simp [conforms] at h
  | vec t =>
      cases j with
      | arr xs =>
          have hl : listConforms t xs = true := by simpa [conforms] using h
          rw [parseValue, parseList_sound src key t xs hl]
          simp [extract, exMap_ok]
      | null => simp [conforms] at h
      | bool b => simp [conforms] at h
      | int n => simp [conforms] at h
      | double q => simp [conforms] at h
      | str s => simp [conforms] at h
      | obj ofs => simp [conforms] at h
termination_by sizeOf ty + sizeOf j
decreasing_by all_goals (subst_vars; simp_wf; try omega)

theorem parseList_sound (src key : String) (t : Ty) (js : List Json)
    (h : listConforms t js = true) :
    parseList src key t js = .ok (extractList t js) := by
  cases js with
  | nil => simp [parseList, extractList]
  | cons j rest =>
      simp only [listConforms, Bool.and_eq_true] at h
      rw [parseList, parseValue_sound src key t j h.1, exBind_ok,
        parseList_sound src key t rest h.2, exBind_ok]
      simp [extractList]
termination_by sizeOf t + sizeOf js
decreasing_by all_goals (subst_vars; simp_wf; try omega)

theorem evalField_sound (src : String) (f : FieldSpec) (root : Json)
    (h : fieldConform f root = true) :
    evalField src f root = .ok (extractField f root) := by
  cases f with
  | required key ty cons =>
      simp only [fieldConform, Bool.and_eq_true] at h
      obtain ⟨⟨hm, hc⟩, hk⟩ := h
      rw [evalField, if_pos hm, parseValue_sound src key ty (root.getKey key) hc, exBind_ok,
        applyCons_ok src key cons (extract ty (root.getKey key)) hk]
      simp [extractField]
  | optional key ty dflt cons =>
      cases hm : root.isMember key with
      | true =>
          simp only [fieldConform, hm, if_true, Bool.and_eq_true, eq_self_iff_true,
            if_pos] at h
          obtain ⟨hc, hk⟩ := h
          rw [evalField, if_pos hm, parseValue_sound src key ty (root.getKey key) hc,
            exBind_ok, applyCons_ok src key cons (extract ty (root.getKey key)) hk]
          simp [extractField, hm]
      | false =>
          have hnm : ¬ (root.isMember key = true) := by simp [hm]
          simp only [fieldConform, hm, Bool.false_eq_true, if_false] at h
          rw [evalField, if_neg hnm, applyCons_ok src key cons dflt h]
          simp [extractField, hm]
termination_by sizeOf f + sizeOf root
decreasing_by all_goals (subst_vars; simp_wf; first | omega | (refine Nat.lt_of_le_of_lt (Nat.add_le_add_left (Json.sizeOf_getKey_le _ _) _) ?_; omega))

theorem evalFields_sound (src : String) (flds : Fields) (root : Json)
    (h : fieldsConform flds root = true) :
    evalFields src flds root = .ok (extractFields flds root) := by
  cases flds with
  | nil => simp [evalFields, extractFields]
  | cons f rest =>
      simp only [fieldsConform, Bool.and_eq_true] at h
      rw [evalFields, evalField_sound src f root h.1, exBind_ok,
        evalFields_sound src rest root h.2, exBind_ok]
      simp [extractFields]
termination_by sizeOf flds + sizeOf root
decreasing_by all_goals (subst_vars; simp_wf; try omega)

end

theorem parseList_eq_mapM (src key : String) (t : Ty) (js : List Json) :
    parseList src key t js = List.mapM (parseValue src key t) js := by
  induction js with
  | nil => rw [parseList, List.mapM_nil]; rfl
  | cons j rest ih => rw [parseList, List.mapM_cons, ih]; rfl

mutual

theorem parseValue_err_key (src key : String) (t : Ty) (j : Json) (e : Err)
    (hn : nestedFree t = true) (h : parseValue src key t j = .error e) :
    e.keyOf = key := by
  cases t with
  | str => cases j <;> (simp [parseValue] at h; try subst h; try simp [Err.keyOf])
  | int =>
      rw [parseValue] at h
      split at h
      · cases h
      · injection h with hme
        subst hme
        simp [Err.keyOf]
  | double =>
      rw [parseValue] at h
      split at h
      · cases h
      · injection h with hme
        subst hme
        simp [Err.keyOf]
  | bool => cases j <;> (simp [parseValue] at h; try subst h; try simp [Err.keyOf])
  | nested flds => simp [nestedFree] at hn
  | vec t' =>
      have hn' : nestedFree t' = true := by simpa [nestedFree] using hn
      cases j with
      | arr xs =>
          rw [parseValue] at h
          cases hl : parseList src key t' xs with
          | ok vs => rw [hl, exMap_ok] at h; cases h
          | error m =>
              rw [hl, exMap_err] at h
              have hme : m = e := by injection h
              subst hme
              exact parseList_err_key src key t' xs m hn' hl
      | null => simp [parseValue] at h; subst h; simp [Err.keyOf]
      | bool b => simp [parseValue] at h; subst h; simp [Err.keyOf]
      | int n => simp [parseValue] at h; subst h; simp [Err.keyOf]
      | double q => simp [parseValue] at h; subst h; simp [Err.keyOf]
      | str s => simp [parseValue] at h; subst h; simp [Err.keyOf]
      | obj ofs => simp [parseValue] at h; subst h; simp [Err.keyOf]
termination_by sizeOf t + sizeOf j
decreasing_by all_goals (subst_vars; simp_wf; try omega)

theorem parseList_err_key (src key : String) (t : Ty) (js : List Json) (e : Err)
    (hn : nestedFree t = true) (h : parseList src key t js = .error e) :
    e.keyOf = key := by
  cases js with
  | nil => rw [parseList] at h; cases h
  | cons j rest =>
      rw [parseList] at h
      cases hv : parseValue src key t j with
      | error m =>
          rw [hv, exBind_err] at h
          have hme : m = e := by injection h
          subst hme
          exact parseValue_err_key src key t j m hn hv
      | ok v =>
          rw [hv, exBind_ok] at h
          cases hr : parseList src key t rest with
          | error m =>
              rw [hr, exBind_err] at h
              have hme : m = e := by injection h
              subst hme
              exact parseList_err_key src key t rest m hn hr
          | ok vs => rw [hr, exBind_ok] at h; cases h
termination_by sizeOf t + sizeOf js
decreasing_by all_goals (subst_vars; simp_wf; try omega)

end

theorem data_append (s t : String) : (s ++ t).data = s.data ++ t.data := by
  cases s; cases t; rfl

/--
Claim C1, counterexample: the claim says every diagnostic raised during
nested construction carries the original `DocumentSource`'s label.  In
the code a nested schema is built as `T(JsonData(value))` with the
constructor's default label, so with original label
`JSON file "config.json"` and document
`("nested" : ("age" : "x"))` the nested type error carries the label
`JSON data`, which differs from the original label.
-/
theorem nested_label_not_parent_cex :
    evalFields "JSON file \"config.json\""
      (Fields.cons (.required "nested"
        (.nested (Fields.cons (.required "age" .int []) .nil)) []) .nil)
      (.obj [("nested", .obj [("age", .str "x")])]) =
      .error (.parsing "JSON data" "age" "an integer value")
    ∧ ("JSON data" : String) ≠ "JSON file \"config.json\"" := by
  constructor
  · simp [evalFields, evalField, parseValue, parseList, Json.isMember, Json.getKey,
      applyCons, applyIntChain, defaultSource, FieldSpec.keyOf, Json.isIntNum,
      exBind_ok, exBind_err, exMap_ok, exMap_err, ValidatedJsonField.toT]
  · decide

/--
Claim C1, amended: for every nested schema field whose child node is an
object, the nested type is constructed recursively from the sub-node
through a fresh `JsonData` carrying the constructor's DEFAULT label
`"JSON data"` — not the parent Binder's provenance label — so nested
construction (and every diagnostic it raises) is independent of the
parent's label, and carries the parent's label only when that label is
itself the default.
-/
theorem nested_uses_default_label (src src' key key' : String) (flds : Fields)
    (ofs : List (String × Json)) :
    parseValue src key (.nested flds) (.obj ofs) =
      (evalFields defaultSource flds (.obj ofs)).map Val.obj
    ∧ parseValue src key (.nested flds) (.obj ofs) =
        parseValue src' key' (.nested flds) (.obj ofs) := by
  constructor
  · rw [parseValue]
  · rw [parseValue, parseValue]

/--
Claim C2, counterexample: the claim says an absent optional key's
default is returned without being run through the constraint chain, so
an out-of-range default does not raise.  In the code the chained
constraint methods run on the wrapper holding the default: with key
`"speed"` absent, default `5` and `AboveMin(10)`, construction throws
the ValidationError `is below minimum of 10`.
-/
theorem optional_default_validated_cex :
    evalField "JSON data" (.optional "speed" .int (.int 5) [IntOp.aboveMin 10]) (.obj []) =
      .error (.validation "JSON data" "speed" "is below minimum of 10") := by
  simp [evalField, Json.isMember, applyCons, applyIntChain, applyIntOp,
    ValidatedJsonField.AboveMin, exBind_ok, exBind_err, exMap_ok, exMap_err]
  rfl

/--
Claim C2, amended: when an optional key is absent, the default value is
wrapped in the very same `ValidatedJsonField` and the caller's chained
constraints apply to it exactly as to a document-sourced value — an
out-of-range default raises the same `ValidationError`.
-/
theorem optional_absent_runs_chain_on_default (src key : String) (ty : Ty) (dflt : Val)
    (cons : List IntOp) (root : Json) (h : root.isMember key = false) :
    evalField src (.optional key ty dflt cons) root = applyCons src key cons dflt := by
  rw [evalField, if_neg (by simp [h])]

theorem optional_absent_runs_chain_on_default_witness :
    Json.isMember (.obj []) "speed" = false ∧
    evalField "JSON data" (.optional "speed" .int (.int 5) [IntOp.aboveMin 10]) (.obj []) =
      applyCons "JSON data" "speed" [IntOp.aboveMin 10] (.int 5) :=
  ⟨by rfl, optional_absent_runs_chain_on_default "JSON data" "speed" .int (.int 5)
    [IntOp.aboveMin 10] (.obj []) (by rfl)⟩

/--
Claim C3: for every declared fixed-capacity array field of element type
`E` and capacity `N`, a JSON array node of length at most `N` is
decoded as a sequence, and a longer array fails with a
capacity-exceeded `ValidationError` rather than being truncated.
(Settled against `parseFixedArray`, modelled from the spec: the C-array
overloads are not among the files under `src/`.)
-/
theorem fixed_capacity_array_decodes_or_rejects (src key : String) (t : Ty) (cap : Nat)
    (xs : List Json) :
    (xs.length ≤ cap →
      parseFixedArray src key t cap (.arr xs) = (parseList src key t xs).map Val.vec)
    ∧ (cap < xs.length →
      parseFixedArray src key t cap (.arr xs) =
        .error (.validation src key ("exceeds the declared capacity of " ++ toString cap))) := by
  constructor
  · intro h; rw [parseFixedArray, if_neg (by omega)]
  · intro h; rw [parseFixedArray, if_pos (by omega)]

theorem fixed_capacity_array_witness :
    ([Json.int 1, Json.int 2, Json.int 3].length ≤ 3 ∧
      parseFixedArray "JSON data" "people" .int 3 (.arr [.int 1, .int 2, .int 3]) =
        (parseList "JSON data" "people" .int [.int 1, .int 2, .int 3]).map Val.vec)
    ∧ (2 < [Json.int 1, Json.int 2, Json.int 3].length ∧
      parseFixedArray "JSON data" "people" .int 2 (.arr [.int 1, .int 2, .int 3]) =
        .error (.validation "JSON data" "people"
          ("exceeds the declared capacity of " ++ toString 2))) :=
  ⟨⟨by decide, (fixed_capacity_array_decodes_or_rejects "JSON data" "people" .int 3
      [.int 1, .int 2, .int 3]).1 (by decide)⟩,
   ⟨by decide, (fixed_capacity_array_decodes_or_rejects "JSON data" "people" .int 2
      [.int 1, .int 2, .int 3]).2 (by decide)⟩⟩

/--
Claim C4: when a `Required<T>(key)` call finds `key` absent,
construction fails with exactly the message
`Required key "<key>" not found`, and this presence diagnostic is the
only one not prefixed `In <provenance label>, ` — every parsing (type),
validation and file diagnostic renders with that prefix.
-/
theorem required_missing_unprefixed_message (src key k d m p rest : String) (ty : Ty)
    (cons : List IntOp) (root : Json) :
    (root.isMember key = false →
      evalField src (.required key ty cons) root = .error (.presence key))
    ∧ (Err.presence k).render = "Required key \"" ++ k ++ "\" not found"
    ∧ (Err.presence k).render ≠ "In " ++ src ++ ", " ++ rest
    ∧ (Err.parsing src k d).render =
        "In " ++ src ++ ", " ++ ("expected " ++ d ++ " for key \"" ++ k ++ "\"")
    ∧ (Err.validation src k m).render =
        "In " ++ src ++ ", " ++ ("value for key \"" ++ k ++ "\" " ++ m)
    ∧ (Err.fileMissing src k p).render =
        "In " ++ src ++ ", " ++ ("filename value for key \"" ++ k ++ "\" does not exist: " ++ p) := by
  refine ⟨?_, rfl, ?_, ?_, ?_, ?_⟩
  · intro h; rw [evalField, if_neg (by simp [h])]
  · intro hcontra
    have h1 := congrArg String.data hcontra
    simp only [Err.render, data_append] at h1
    simp [List.cons_append] at h1
  · simp only [Err.render, String.append_assoc]
    refine congrArg (fun z => "In " ++ (src ++ z)) ?_
    conv_rhs => rw [← String.append_assoc]
    rfl
  · simp only [Err.render, String.append_assoc]
    refine congrArg (fun z => "In " ++ (src ++ z)) ?_
    conv_rhs => rw [← String.append_assoc]
    rfl
  · simp only [Err.render, String.append_assoc]
    refine congrArg (fun z => "In " ++ (src ++ z)) ?_
    conv_rhs => rw [← String.append_assoc]
    rfl

theorem required_missing_unprefixed_message_witness :
    Json.isMember (.obj [("other", .int 1)]) "testInt" = false ∧
    evalField "JSON data" (.required "testInt" .int []) (.obj [("other", .int 1)]) =
      .error (.presence "testInt") ∧
    (Err.presence "testInt").render = "Required key \"testInt\" not found" :=
  ⟨by rfl,
   (required_missing_unprefixed_message "JSON data" "testInt" "k" "d" "m" "p" "r" .int []
      (.obj [("other", .int 1)])).1 (by rfl),
   by rfl⟩

/--
Claim C5: for every document in which every declared required key is
present with a value of the expected JSON type, every present optional
key is well-typed, and every declared constraint chain is satisfied by
the value it is applied to, schema construction succeeds and each
constructed field equals the value extracted from the document, or the
declared default when an optional key is absent.
-/
theorem conformant_construction_succeeds (src : String) (flds : Fields) (root : Json)
    (h : fieldsConform flds root = true) :
    evalFields src flds root = .ok (extractFields flds root) :=
  evalFields_sound src flds root h

theorem conformant_construction_succeeds_witness :
    fieldsConform
      (Fields.cons (.required "name" .str [])
        (Fields.cons (.required "count" .int [IntOp.withinRange 1 10])
          (Fields.cons (.required "scale" .double [])
            (Fields.cons (.optional "age" .int (.int 7) [IntOp.aboveMin 0]) .nil))))
      (.obj [("name", .str "joe"), ("count", .int 3), ("scale", .int 2)]) = true ∧
    evalFields "JSON data"
      (Fields.cons (.required "name" .str [])
        (Fields.cons (.required "count" .int [IntOp.withinRange 1 10])
          (Fields.cons (.required "scale" .double [])
            (Fields.cons (.optional "age" .int (.int 7) [IntOp.aboveMin 0]) .nil))))
      (.obj [("name", .str "joe"), ("count", .int 3), ("scale", .int 2)]) =
      .ok [("name", Val.str "joe"), ("count", Val.int 3),
        ("scale", Val.double ((2 : Int) : Rat)), ("age", Val.int 7)] := by
  have hc : fieldsConform
      (Fields.cons (.required "name" .str [])
        (Fields.cons (.required "count" .int [IntOp.withinRange 1 10])
          (Fields.cons (.required "scale" .double [])
            (Fields.cons (.optional "age" .int (.int 7) [IntOp.aboveMin 0]) .nil))))
      (.obj [("name", .str "joe"), ("count", .int 3), ("scale", .int 2)]) = true := by
    simp [fieldsConform, fieldConform, conforms, consOk, IntOp.holds,
      Json.isMember, Json.getKey, extract, Json.isIntNum, Json.isDoubleNum,
      Json.asIntNum, Json.asDoubleNum, jsonMinInt, jsonMaxInt]
  refine ⟨hc, ?_⟩
  rw [conformant_construction_succeeds "JSON data" _ _ hc]
  simp [extractFields, extractField, extract, Json.isMember, Json.getKey,
    FieldSpec.keyOf, Json.asIntNum, Json.asDoubleNum]

/--
Claim C6, counterexample: the claim says a failure on any element of a
sequence field reports the same outer key as the sequence field itself.
When the element type is a nested schema, a failure inside the
element's own construction reports the nested field's key: decoding
`[(empty object)]` as a sequence of a schema requiring `"age"` under
the outer key `"values"` fails with a presence error for `"age"`, not
`"values"`.
-/
theorem element_failure_inner_key_cex :
    parseValue "JSON data" "values"
      (.vec (.nested (Fields.cons (.required "age" .int []) .nil)))
      (.arr [.obj []]) = .error (.presence "age")
    ∧ Err.keyOf (.presence "age") ≠ "values" := by
  constructor
  · simp [parseValue, parseList, evalFields, evalField, Json.isMember,
      applyCons, defaultSource, exBind_ok, exBind_err, exMap_ok, exMap_err, FieldSpec.keyOf]
  · simp [Err.keyOf]

/--
Claim C6, amended: every element of a sequence field is decoded by the
same dispatch rule for the element type, in source array order, with no
reordering or deduplication (the decode is exactly `mapM` of the
element decoder), and each element decode receives the sequence field's
outer key, so for element types that never enter nested schema
construction every element failure reports that outer key; failures
inside nested element construction report the nested field's own key.
-/
theorem sequence_in_order_outer_key (src key : String) (t : Ty) :
    (∀ xs : List Json,
      parseValue src key (.vec t) (.arr xs) =
        (List.mapM (parseValue src key t) xs).map Val.vec)
    ∧ (nestedFree t = true →
        ∀ (j : Json) (e : Err), parseValue src key t j = .error e → e.keyOf = key) := by
  constructor
  · intro xs; rw [parseValue, parseList_eq_mapM]
  · intro hn j e h; exact parseValue_err_key src key t j e hn h

theorem sequence_in_order_outer_key_witness :
    (parseValue "JSON data" "values" (.vec .int) (.arr [.int 1, .int 2]) =
      (List.mapM (parseValue "JSON data" "values" .int) [.int 1, .int 2]).map Val.vec)
    ∧ Err.keyOf (.parsing "JSON data" "values" "an integer value") = "values" := by
  refine ⟨(sequence_in_order_outer_key "JSON data" "values" .int).1 [.int 1, .int 2], ?_⟩
  exact (sequence_in_order_outer_key "JSON data" "values" .int).2 (by rfl)
    (.str "x") _ (by simp [parseValue, Json.isIntNum])

/--
Claim C7: for every extracted value `v` and bounds `min`, `max`,
`WithinRange(min,max)` fails with a `ValidationError` if and only if
`v < min` or `v > max`, the failure message always reports the full
range `is outside range <min> to <max>` whichever bound was violated,
and otherwise the same wrapper is returned with `v` unchanged.
-/
theorem withinRange_spec (f : ValidatedJsonField Int) (lo hi : Int) :
    (f.WithinRange lo hi =
        .error (.validation f.source f.key
          ("is outside range " ++ toString lo ++ " to " ++ toString hi))
      ↔ (f.value < lo ∨ f.value > hi))
    ∧ (¬ (f.value < lo ∨ f.value > hi) → f.WithinRange lo hi = .ok f) := by
  unfold ValidatedJsonField.WithinRange
  constructor
  · constructor
    · intro h
      by_contra hc
      rw [if_neg hc] at h
      cases h
    · intro hc
      rw [if_pos hc]
  · intro hc
    rw [if_neg hc]

theorem withinRange_spec_witness :
    ((⟨"testInt", (9:Int), "JSON data"⟩ : ValidatedJsonField Int).WithinRange 10 20 =
      .error (.validation "JSON data" "testInt" "is outside range 10 to 20"))
    ∧ ((⟨"testInt", (11:Int), "JSON data"⟩ : ValidatedJsonField Int).WithinRange 10 20 =
      .ok ⟨"testInt", 11, "JSON data"⟩)
    ∧ Err.render (.validation "JSON data" "testInt" "is outside range 10 to 20") =
      "In JSON data, value for key \"testInt\" is outside range 10 to 20" := by
  refine ⟨?_, ?_, by rfl⟩
  · exact (withinRange_spec ⟨"testInt", (9:Int), "JSON data"⟩ 10 20).1.mpr (by decide)
  · exact (withinRange_spec ⟨"testInt", (11:Int), "JSON data"⟩ 10 20).2 (by decide)

/--
Claim C8: for every extracted value `v` and permitted set `S`,
`MemberOf(S)` succeeds exactly when `v` equals some element of `S`, and
on failure raises a `ValidationError` listing all permitted values
space-separated after `must be one of:`.
-/
theorem memberOf_spec (f : ValidatedJsonField Int) (s : List Int) :
    (f.MemberOf s = .ok f ↔ f.value ∈ s)
    ∧ (f.value ∉ s →
        f.MemberOf s = .error (.validation f.source f.key
          ("must be one of:" ++ String.join (s.map (fun p => " " ++ toString p))))) := by
  have hcond : ((s.any fun p => f.value == p) = true) ↔ f.value ∈ s := by simp
  constructor
  · constructor
    · intro h
      by_contra hm
      have hc : ¬ ((s.any fun p => f.value == p) = true) := fun hx => hm (hcond.mp hx)
      simp only [ValidatedJsonField.MemberOf, if_neg hc] at h
      cases h
    · intro hm
      simp only [ValidatedJsonField.MemberOf, if_pos (hcond.mpr hm)]
  · intro hm
    have hc : ¬ ((s.any fun p => f.value == p) = true) := fun hx => hm (hcond.mp hx)
    simp only [ValidatedJsonField.MemberOf, if_neg hc]

theorem memberOf_spec_witness :
    ((4:Int) ∉ [(1:Int), 2, 3]) ∧
    (ValidatedJsonField.MemberOf ⟨"testValue", (4:Int), "JSON data"⟩ [1, 2, 3] =
      .error (.validation "JSON data" "testValue" "must be one of: 1 2 3")) ∧
    (ValidatedJsonField.MemberOf ⟨"testValue", (2:Int), "JSON data"⟩ [1, 2, 3] =
      .ok ⟨"testValue", 2, "JSON data"⟩) := by
  refine ⟨by decide, ?_, ?_⟩
  · exact (memberOf_spec ⟨"testValue", (4:Int), "JSON data"⟩ [1, 2, 3]).2 (by decide)
  · exact (memberOf_spec ⟨"testValue", (2:Int), "JSON data"⟩ [1, 2, 3]).1.mpr (by decide)

/--
Claim C9: every constraint method is value-preserving — any successful
constraint chain returns a wrapper that converts (via `operator T`) to
exactly the value it started with, and a successful `File` check
likewise returns its wrapper unchanged.
-/
theorem constraint_chain_preserves_value :
    (∀ (ops : List IntOp) (f g : ValidatedJsonField Int),
      applyIntChain ops f = .ok g → g.toT = f.toT)
    ∧ (∀ (fsExists : String → Bool) (pre : String) (f g : ValidatedJsonField String),
      f.File fsExists pre = .ok g → g.toT = f.toT) := by
  constructor
  · intro ops f g h
    rw [applyIntChain_preserves ops f g h]
  · intro fs pre f g h
    unfold ValidatedJsonField.File at h
    split at h
    · cases h; rfl
    · cases h

theorem constraint_chain_preserves_value_witness :
    applyIntChain [IntOp.aboveMin 1, IntOp.withinRange 0 10, IntOp.memberOf [5]]
      ⟨"k", (5:Int), "s"⟩ = .ok ⟨"k", 5, "s"⟩
    ∧ ValidatedJsonField.toT (⟨"k", (5:Int), "s"⟩ : ValidatedJsonField Int) =
        ValidatedJsonField.toT (⟨"k", (5:Int), "s"⟩ : ValidatedJsonField Int) :=
  ⟨by rfl, constraint_chain_preserves_value.1 [IntOp.aboveMin 1, IntOp.withinRange 0 10,
    IntOp.memberOf [5]] ⟨"k", 5, "s"⟩ ⟨"k", 5, "s"⟩ (by rfl)⟩

/--
Claim C10: `MemberOf` applied with an empty permitted set fails for
every extracted value, with a `ValidationError` whose message is
exactly `must be one of:` with no listed values.
-/
theorem memberOf_empty_always_fails (f : ValidatedJsonField Int) :
    f.MemberOf [] = .error (.validation f.source f.key "must be one of:") := by
  simp [ValidatedJsonField.MemberOf, String.join]
